import Mathlib

/-!
Verification of the Clerk identity-sync and user data-access layer
(`convex/users.ts` and `convex/schema.ts`).

The Convex document store is modelled as a list of user documents kept in
insertion (creation-time) order together with a counter supplying fresh
internal ids.  A thrown exception inside a mutation aborts the whole
mutation (Convex mutations are transactional), so fallible handlers return
`Except String DB` and an `error` result leaves the store untouched.
-/

/-- A document of the `users` collection, as declared in `convex/schema.ts`:
required `email` and `clerkUserId`, optional `firstname`, `lastname`,
`imageUrl` and `posts`, plus the internal id `_id` the store assigns. -/
structure UserDoc where
  _id : Nat
  email : String
  clerkUserId : String
  firstname : Option String
  lastname : Option String
  imageUrl : Option String
  posts : Option (List Nat)
deriving Repr, DecidableEq

/-- The `users` collection: documents in insertion order (oldest first),
plus the next fresh internal id. -/
structure DB where
  users : List UserDoc
  nextId : Nat
deriving Repr, DecidableEq

/-- Documents matching the `byClerkUserId` index equality query, in store
order. -/
def clerkMatches (db : DB) (s : String) : List UserDoc :=
  db.users.filter (fun u => u.clerkUserId == s)

/-- `userByClerkUserId` (`userByExternalId`): indexed lookup followed by
`.unique()`, which returns `null` on no match, the document on exactly one
match, and throws when more than one document matches. -/
def userByClerkUserId (db : DB) (clerkUserId : String) : Except String (Option UserDoc) :=
  match clerkMatches db clerkUserId with
  | [] => .ok none
  | [u] => .ok (some u)
  | _ => .error "unique() query returned more than one result"

/-- The field set `userAttributes` built by `upsertFromClerk`: everything of
a user document except the internal id and `posts`. -/
structure UserAttributes where
  email : String
  clerkUserId : String
  firstname : Option String
  lastname : Option String
  imageUrl : Option String
deriving Repr, DecidableEq

/-- The new document `ctx.db.insert("users", a)` creates: it carries the
given fields and a fresh internal id; fields not in `a` (here `posts`) are
absent. -/
def insertedDoc (db : DB) (a : UserAttributes) : UserDoc :=
  { _id := db.nextId,
    email := a.email,
    clerkUserId := a.clerkUserId,
    firstname := a.firstname,
    lastname := a.lastname,
    imageUrl := a.imageUrl,
    posts := none }

/-- `ctx.db.insert("users", a)`: appends the new document. -/
def dbInsert (db : DB) (a : UserAttributes) : DB :=
  { users := db.users ++ [insertedDoc db a], nextId := db.nextId + 1 }

/-- Overwrite on one document exactly the fields of `a`, keeping `_id` and
`posts`. -/
def patchUser (u : UserDoc) (a : UserAttributes) : UserDoc :=
  { u with
    email := a.email,
    clerkUserId := a.clerkUserId,
    firstname := a.firstname,
    lastname := a.lastname,
    imageUrl := a.imageUrl }

/-- `ctx.db.patch(id, a)`: partial overwrite of the document with internal
id `id`; document order (creation time) is unchanged. -/
def dbPatch (db : DB) (id : Nat) (a : UserAttributes) : DB :=
  { db with users := db.users.map (fun u => if u._id == id then patchUser u a else u) }

/-- `ctx.db.delete(id)`: removes the document with internal id `id`. -/
def dbDelete (db : DB) (id : Nat) : DB :=
  { db with users := db.users.filter (fun u => u._id != id) }

/-- `getUsers`: `ctx.db.query("users").collect()`. -/
def getUsers (db : DB) : List UserDoc :=
  db.users

/-- `getRecentUsers`: `ctx.db.query("users").order("desc").take(5)` —
documents in descending creation order, at most five. -/
def getRecentUsers (db : DB) : List UserDoc :=
  db.users.reverse.take 5

/-- One entry of the payload's `email_addresses` list. -/
structure EmailAddressJSON where
  email_address : String
deriving Repr, DecidableEq

/-- The Clerk `UserJSON` event payload fields the handler reads:
`first_name`, `last_name` and `image_url` are nullable, which the handler
maps to absent via `?? undefined`. -/
structure UserJSON where
  id : String
  email_addresses : List EmailAddressJSON
  first_name : Option String
  last_name : Option String
  image_url : Option String
deriving Repr, DecidableEq

/-- The `userAttributes` record `upsertFromClerk` builds from the payload,
given the first entry `e` of `email_addresses`. -/
def mkUserAttributes (e : EmailAddressJSON) (data : UserJSON) : UserAttributes :=
  { email := e.email_address, clerkUserId := data.id,
    firstname := data.first_name, lastname := data.last_name,
    imageUrl := data.image_url }

/-- `upsertFromClerk`: reads `data.email_addresses[0].email_address` with no
guard (a `TypeError` when the list is empty, thrown before any store
access), then looks up by subject id and inserts when absent, patches when
present. -/
def upsertFromClerk (db : DB) (data : UserJSON) : Except String DB :=
  match data.email_addresses with
  | [] => .error "TypeError: cannot read email_address of undefined"
  | e :: _ =>
    let userAttributes := mkUserAttributes e data
    match userByClerkUserId db data.id with
    | .error msg => .error msg
    | .ok none => .ok (dbInsert db userAttributes)
    | .ok (some user) => .ok (dbPatch db user._id userAttributes)

/-- `deleteFromClerk`: looks up by subject id; deletes when present,
otherwise only logs a warning and leaves the store unchanged. -/
def deleteFromClerk (db : DB) (clerkUserId : String) : Except String DB :=
  match userByClerkUserId db clerkUserId with
  | .error msg => .error msg
  | .ok (some user) => .ok (dbDelete db user._id)
  | .ok none => .ok db

/-- The identity record `ctx.auth.getUserIdentity()` resolves for an
authenticated caller; `none` models an unauthenticated caller. -/
structure UserIdentity where
  subject : String
deriving Repr, DecidableEq

/-- `getCurrentUser`: `null` when unauthenticated, otherwise the indexed
lookup by the identity's subject id. -/
def getCurrentUser (identity : Option UserIdentity) (db : DB) : Except String (Option UserDoc) :=
  match identity with
  | none => .ok none
  | some i => userByClerkUserId db i.subject

/-- The `current` query: delegates to `getCurrentUser`. -/
def current (identity : Option UserIdentity) (db : DB) : Except String (Option UserDoc) :=
  getCurrentUser identity db

/-- `getCurrentUserOrThrow`: throws `Can't get current user` when
`getCurrentUser` yields `null`, otherwise returns the record. -/
def getCurrentUserOrThrow (identity : Option UserIdentity) (db : DB) : Except String UserDoc :=
  match getCurrentUser identity db with
  | .error msg => .error msg
  | .ok none => .error "Cannot get current user"
  | .ok (some u) => .ok u

/-- Well-formedness the store itself guarantees: internal ids are pairwise
distinct and below the fresh-id counter. -/
def WfIds (db : DB) : Prop :=
  (db.users.map (fun u => u._id)).Nodup ∧ ∀ u ∈ db.users, u._id < db.nextId

/-- The module's uniqueness invariant: at most one user document per
external subject id. -/
def UniqueClerk (db : DB) : Prop :=
  (db.users.map (fun u => u.clerkUserId)).Nodup

/-- A serial identity-sync invocation. -/
inductive SyncOp where
  | upsert (data : UserJSON)
  | erase (clerkUserId : String)
deriving Repr, DecidableEq

/-- Run one sync mutation; a thrown error aborts the transaction and leaves
the store unchanged. -/
def applyOp (db : DB) (op : SyncOp) : DB :=
  match op with
  | .upsert data =>
    match upsertFromClerk db data with
    | .ok db2 => db2
    | .error _ => db
  | .erase s =>
    match deleteFromClerk db s with
    | .ok db2 => db2
    | .error _ => db

/-- Run a serial sequence of sync mutations. -/
def runOps (db : DB) (ops : List SyncOp) : DB :=
  ops.foldl applyOp db

/-! ### Basic facts about the indexed lookup -/

theorem mem_clerkMatches {db : DB} {s : String} {u : UserDoc} :
    u ∈ clerkMatches db s ↔ u ∈ db.users ∧ u.clerkUserId = s := by
  simp [clerkMatches, List.mem_filter]

theorem of_clerkMatches_eq_single {db : DB} {s : String} {u : UserDoc}
    (h : clerkMatches db s = [u]) : u ∈ db.users ∧ u.clerkUserId = s :=
  mem_clerkMatches.mp (by simp [h])

theorem userByClerkUserId_ok_none {db : DB} {s : String} :
    userByClerkUserId db s = .ok none ↔ clerkMatches db s = [] := by
  rcases h : clerkMatches db s with _ | ⟨v, _ | ⟨w, t⟩⟩ <;>
    simp [userByClerkUserId, h]

theorem userByClerkUserId_ok_some {db : DB} {s : String} {u : UserDoc} :
    userByClerkUserId db s = .ok (some u) ↔ clerkMatches db s = [u] := by
  rcases h : clerkMatches db s with _ | ⟨v, _ | ⟨w, t⟩⟩ <;>
    simp [userByClerkUserId, h]

/-! ### Effect of the primitive store operations on the index query -/

theorem clerkMatches_dbInsert (db : DB) (a : UserAttributes) (s : String) :
    clerkMatches (dbInsert db a) s =
      clerkMatches db s ++ if a.clerkUserId = s then [insertedDoc db a] else [] := by
  by_cases h : a.clerkUserId = s <;>
    simp [clerkMatches, dbInsert, List.filter_append, insertedDoc, h]

theorem filter_map_patch {l : List UserDoc} {s : String} {user : UserDoc} {a : UserAttributes}
    (hN : (l.map (fun u => u._id)).Nodup)
    (hm : l.filter (fun u => u.clerkUserId == s) = [user])
    (ha : a.clerkUserId = s) :
    (l.map (fun u => if u._id == user._id then patchUser u a else u)).filter
      (fun u => u.clerkUserId == s) = [patchUser user a] := by
  induction l with
  | nil => simp at hm
  | cons u t ih =>
    have hN2 : u._id ∉ t.map (fun v => v._id) ∧ (t.map (fun v => v._id)).Nodup := by
      simpa [List.nodup_cons] using hN
    by_cases hcu : u.clerkUserId = s
    · have hm2 : u = user ∧ t.filter (fun v => v.clerkUserId == s) = [] := by
        simpa [List.filter_cons, hcu] using hm
      obtain ⟨rfl, ht⟩ := hm2
      have hmap : t.map (fun v => if v._id == u._id then patchUser v a else v) = t := by
        conv_rhs => rw [← List.map_id t]
        apply List.map_congr_left
        intro v hv
        have hne : v._id ≠ u._id := by
          intro he
          exact hN2.1 (List.mem_map.mpr ⟨v, hv, he⟩)
        simp [hne]
      have hhead : (if (u._id == u._id) then patchUser u a else u) = patchUser u a := by
        simp
      rw [List.map_cons, hhead, hmap, List.filter_cons,
        if_pos (show ((patchUser u a).clerkUserId == s) = true by simp [patchUser, ha]), ht]
    · have hm2 : t.filter (fun v => v.clerkUserId == s) = [user] := by
        simpa [List.filter_cons, hcu] using hm
      have huser_mem : user ∈ t :=
        (List.mem_filter.mp (show user ∈ t.filter (fun v => v.clerkUserId == s) by
          simp [hm2])).1
      have hne : u._id ≠ user._id := by
        intro he
        exact hN2.1 (List.mem_map.mpr ⟨user, huser_mem, he.symm⟩)
      have hhead : (if (u._id == user._id) then patchUser u a else u) = u := by
        simp [hne]
      rw [List.map_cons, hhead, List.filter_cons,
        if_neg (show ¬ ((u.clerkUserId == s) = true) by simpa using hcu)]
      exact ih hN2.2 hm2

theorem clerkMatches_dbPatch_self {db : DB} {s : String} {user : UserDoc} {a : UserAttributes}
    (hN : (db.users.map (fun u => u._id)).Nodup)
    (hm : clerkMatches db s = [user]) (ha : a.clerkUserId = s) :
    clerkMatches (dbPatch db user._id a) s = [patchUser user a] :=
  filter_map_patch hN hm ha

theorem clerkMatches_dbDelete_self {db : DB} {s : String} {user : UserDoc}
    (hm : clerkMatches db s = [user]) :
    clerkMatches (dbDelete db user._id) s = [] := by
  rw [clerkMatches, dbDelete]
  rw [List.filter_eq_nil_iff]
  intro v hv hps
  have hv1 := List.mem_filter.mp hv
  have hvm : v ∈ clerkMatches db s := List.mem_filter.mpr ⟨hv1.1, hps⟩
  rw [hm] at hvm
  have : v = user := by simpa using hvm
  subst this
  simp at hv1

/-! ### Preservation of store well-formedness -/

theorem wfIds_dbInsert {db : DB} (a : UserAttributes) (h : WfIds db) :
    WfIds (dbInsert db a) := by
  obtain ⟨hnd, hlt⟩ := h
  constructor
  · simp only [dbInsert, List.map_append, List.map_cons, List.map_nil,
      List.nodup_append, insertedDoc]
    refine ⟨hnd, List.nodup_singleton _, ?_⟩
    intro x hx
    obtain ⟨u, hu, rfl⟩ := List.mem_map.mp hx
    simp only [List.mem_singleton]
    exact Nat.ne_of_lt (hlt u hu)
  · intro u hu
    rcases List.mem_append.mp hu with hu | hu
    · exact Nat.lt_succ_of_lt (hlt u hu)
    · have : u = insertedDoc db a := by simpa using hu
      subst this
      exact Nat.lt_succ_self _

theorem wfIds_dbPatch {db : DB} (id : Nat) (a : UserAttributes) (h : WfIds db) :
    WfIds (dbPatch db id a) := by
  obtain ⟨hnd, hlt⟩ := h
  have hid : ∀ u : UserDoc, (if (u._id == id) then patchUser u a else u)._id = u._id := by
    intro u
    by_cases hc : u._id = id <;> simp [patchUser, hc]
  constructor
  · have : (dbPatch db id a).users.map (fun u => u._id)
        = db.users.map (fun u => u._id) := by
      simp only [dbPatch, List.map_map]
      exact List.map_congr_left (fun u _ => hid u)
    rw [this]
    exact hnd
  · intro u hu
    obtain ⟨v, hv, rfl⟩ := List.mem_map.mp hu
    rw [hid v]
    exact hlt v hv

theorem wfIds_dbDelete {db : DB} (id : Nat) (h : WfIds db) : WfIds (dbDelete db id) := by
  obtain ⟨hnd, hlt⟩ := h
  constructor
  · exact ((List.filter_sublist _).map _).nodup hnd
  · intro u hu
    exact hlt u (List.mem_filter.mp hu).1

/-! ### Preservation of the subject-id uniqueness invariant -/

theorem uniqueClerk_dbInsert {db : DB} {a : UserAttributes}
    (hU : UniqueClerk db) (hfresh : clerkMatches db a.clerkUserId = []) :
    UniqueClerk (dbInsert db a) := by
  have hnot : ∀ v ∈ db.users, v.clerkUserId ≠ a.clerkUserId := by
    intro v hv he
    have : v ∈ clerkMatches db a.clerkUserId := mem_clerkMatches.mpr ⟨hv, he⟩
    rw [hfresh] at this
    simp at this
  simp only [UniqueClerk, dbInsert, List.map_append, List.map_cons, List.map_nil,
    List.nodup_append, insertedDoc]
  refine ⟨hU, List.nodup_singleton _, ?_⟩
  intro x hx
  obtain ⟨u, hu, rfl⟩ := List.mem_map.mp hx
  simp only [List.mem_singleton]
  exact hnot u hu

theorem uniqueClerk_dbPatch_self {db : DB} {user : UserDoc} {a : UserAttributes}
    (hWf : WfIds db) (hU : UniqueClerk db)
    (hm : clerkMatches db a.clerkUserId = [user]) :
    UniqueClerk (dbPatch db user._id a) := by
  obtain ⟨huser_mem, huser_id⟩ := of_clerkMatches_eq_single hm
  have hmap : (dbPatch db user._id a).users.map (fun u => u.clerkUserId)
      = db.users.map (fun u => u.clerkUserId) := by
    simp only [dbPatch, List.map_map]
    apply List.map_congr_left
    intro v hv
    by_cases hc : v._id = user._id
    · have hveq : v = user :=
        List.inj_on_of_nodup_map hWf.1 hv huser_mem hc
      subst hveq
      simp [patchUser, huser_id]
    · simp [Function.comp, hc]
  unfold UniqueClerk
  rw [hmap]
  exact hU

theorem uniqueClerk_dbDelete {db : DB} (id : Nat) (hU : UniqueClerk db) :
    UniqueClerk (dbDelete db id) :=
  ((List.filter_sublist _).map _).nodup hU

/-! ### Case analysis of the sync mutations -/

theorem upsert_ok_elim {db : DB} {data : UserJSON} {db1 : DB}
    (h : upsertFromClerk db data = .ok db1) :
    ∃ e rest, data.email_addresses = e :: rest ∧
      ((clerkMatches db data.id = [] ∧ db1 = dbInsert db (mkUserAttributes e data)) ∨
       (∃ user, clerkMatches db data.id = [user] ∧
         db1 = dbPatch db user._id (mkUserAttributes e data))) := by
  rcases hmail : data.email_addresses with _ | ⟨e, rest⟩
  · rw [upsertFromClerk, hmail] at h
    simp at h
  · refine ⟨e, rest, rfl, ?_⟩
    rcases hl : clerkMatches db data.id with _ | ⟨u, _ | ⟨w, t⟩⟩
    · left
      rw [upsertFromClerk, hmail] at h
      simp only [userByClerkUserId, hl] at h
      exact ⟨rfl, by simpa using h.symm⟩
    · right
      refine ⟨u, rfl, ?_⟩
      rw [upsertFromClerk, hmail] at h
      simp only [userByClerkUserId, hl] at h
      simpa using h.symm
    · exfalso
      rw [upsertFromClerk, hmail] at h
      simp only [userByClerkUserId, hl] at h
      simp at h

theorem delete_ok_elim {db : DB} {s : String} {db1 : DB}
    (h : deleteFromClerk db s = .ok db1) :
    (clerkMatches db s = [] ∧ db1 = db) ∨
    (∃ user, clerkMatches db s = [user] ∧ db1 = dbDelete db user._id) := by
  rcases hl : clerkMatches db s with _ | ⟨u, _ | ⟨w, t⟩⟩
  · left
    rw [deleteFromClerk] at h
    simp only [userByClerkUserId, hl] at h
    exact ⟨rfl, by simpa using h.symm⟩
  · right
    refine ⟨u, rfl, ?_⟩
    rw [deleteFromClerk] at h
    simp only [userByClerkUserId, hl] at h
    simpa using h.symm
  · exfalso
    rw [deleteFromClerk] at h
    simp only [userByClerkUserId, hl] at h
    simp at h

theorem clerkMatches_after_upsert {db : DB} {data : UserJSON} {db1 : DB}
    (hN : (db.users.map (fun u => u._id)).Nodup)
    (h : upsertFromClerk db data = .ok db1) :
    ∃ w, clerkMatches db1 data.id = [w] := by
  obtain ⟨e, rest, hmail, hcase⟩ := upsert_ok_elim h
  rcases hcase with ⟨hnil, rfl⟩ | ⟨user, hone, rfl⟩
  · refine ⟨insertedDoc db (mkUserAttributes e data), ?_⟩
    rw [clerkMatches_dbInsert]
    simp [hnil, mkUserAttributes]
  · exact ⟨patchUser user (mkUserAttributes e data),
      clerkMatches_dbPatch_self hN hone rfl⟩

/-! ### Idempotence of the primitive writes used by the upsert -/

theorem patchUser_insertedDoc (db : DB) (a : UserAttributes) :
    patchUser (insertedDoc db a) a = insertedDoc db a := rfl

theorem patchUser_patchUser (u : UserDoc) (a : UserAttributes) :
    patchUser (patchUser u a) a = patchUser u a := rfl

theorem dbPatch_dbInsert_fresh {db : DB} (a : UserAttributes) (hWf : WfIds db) :
    dbPatch (dbInsert db a) db.nextId a = dbInsert db a := by
  have h1 : db.users.map (fun u => if u._id == db.nextId then patchUser u a else u)
      = db.users := by
    conv_rhs => rw [← List.map_id db.users]
    apply List.map_congr_left
    intro u hu
    have : u._id ≠ db.nextId := Nat.ne_of_lt (hWf.2 u hu)
    simp [this]
  simp only [dbPatch, dbInsert, List.map_append, List.map_cons, List.map_nil, h1]
  simp [insertedDoc, patchUser]

theorem dbPatch_dbPatch (db : DB) (id : Nat) (a : UserAttributes) :
    dbPatch (dbPatch db id a) id a = dbPatch db id a := by
  simp only [dbPatch, List.map_map, DB.mk.injEq]
  refine ⟨?_, trivial⟩
  apply List.map_congr_left
  intro u _
  by_cases hc : u._id = id
  · simp [Function.comp, hc, patchUser]
  · simp [Function.comp, hc]

theorem upsert_idem_ok {db : DB} {data : UserJSON} {db1 : DB} (hWf : WfIds db)
    (h : upsertFromClerk db data = .ok db1) :
    upsertFromClerk db1 data = .ok db1 := by
  obtain ⟨e, rest, hmail, hcase⟩ := upsert_ok_elim h
  rcases hcase with ⟨hnil, rfl⟩ | ⟨user, hone, rfl⟩
  · have hm1 : clerkMatches (dbInsert db (mkUserAttributes e data)) data.id
        = [insertedDoc db (mkUserAttributes e data)] := by
      rw [clerkMatches_dbInsert]
      simp [hnil, mkUserAttributes]
    rw [upsertFromClerk, hmail]
    simp only [userByClerkUserId, hm1]
    have hid : (insertedDoc db (mkUserAttributes e data))._id = db.nextId := rfl
    rw [hid, dbPatch_dbInsert_fresh _ hWf]
  · have hm1 : clerkMatches (dbPatch db user._id (mkUserAttributes e data)) data.id
        = [patchUser user (mkUserAttributes e data)] :=
      clerkMatches_dbPatch_self hWf.1 hone rfl
    rw [upsertFromClerk, hmail]
    simp only [userByClerkUserId, hm1]
    have hid : (patchUser user (mkUserAttributes e data))._id = user._id := rfl
    rw [hid, dbPatch_dbPatch]

/-! ### Under the uniqueness invariant the indexed lookup never throws -/

theorem clerkMatches_nil_or_single {db : DB} (hU : UniqueClerk db) (s : String) :
    clerkMatches db s = [] ∨ ∃ u, clerkMatches db s = [u] := by
  have hsub : ((clerkMatches db s).map (fun u => u.clerkUserId)).Sublist
      (db.users.map (fun u => u.clerkUserId)) :=
    (List.filter_sublist _).map _
  have hnd := hsub.nodup hU
  rcases hm : clerkMatches db s with _ | ⟨u, _ | ⟨w, t⟩⟩
  · exact Or.inl rfl
  · exact Or.inr ⟨u, rfl⟩
  · exfalso
    have hu : u.clerkUserId = s := (mem_clerkMatches.mp (by rw [hm]; simp)).2
    have hw : w.clerkUserId = s := (mem_clerkMatches.mp (by rw [hm]; simp)).2
    rw [hm] at hnd
    simp [List.nodup_cons, hu, hw] at hnd

/-! ### Concrete data used to instantiate the theorems -/

/-- An empty store. -/
def emptyDB : DB := { users := [], nextId := 0 }

/-- A concrete create/update event payload. -/
def demoFreshPayload : UserJSON :=
  { id := "user_1",
    email_addresses := [{ email_address := "ann.at.example.com" }],
    first_name := some "Ann",
    last_name := none,
    image_url := none }

/-- A concrete user document. -/
def demoDoc : UserDoc :=
  { _id := 0,
    email := "ann.at.example.com",
    clerkUserId := "user_1",
    firstname := none,
    lastname := none,
    imageUrl := none,
    posts := some [4, 7] }

/-- A one-user store. -/
def demoDB1 : DB := { users := [demoDoc], nextId := 1 }

/-- A payload with an empty `email_addresses` list. -/
def demoEmptyMailPayload : UserJSON :=
  { id := "user_9",
    email_addresses := [],
    first_name := none,
    last_name := none,
    image_url := none }

/-- A user document with a given internal id, for bulk stores. -/
def demoUser (i : Nat) : UserDoc :=
  { _id := i,
    email := "u.at.example.com",
    clerkUserId := toString i,
    firstname := none,
    lastname := none,
    imageUrl := none,
    posts := none }

/-- A six-user store. -/
def demoBigDB : DB := { users := (List.range 6).map demoUser, nextId := 6 }

/-! ### The claims -/

/-- Claim C1: for every valid event payload whose subject id has no
existing user record, running `upsertFromClerk` with that payload and then
`userByClerkUserId` with the same subject id returns a user record whose
email equals the payload's first listed email address, whose `clerkUserId`
equals the payload's id, and whose `firstname`, `lastname` and `imageUrl`
equal the payload's corresponding fields, with each optional field (and
`posts`) absent when the payload omits it. -/
theorem upsert_fresh_lookup (db : DB) (data : UserJSON) (e : EmailAddressJSON)
    (rest : List EmailAddressJSON)
    (hmail : data.email_addresses = e :: rest)
    (hfresh : userByClerkUserId db data.id = .ok none) :
    ∃ db1 u, upsertFromClerk db data = .ok db1 ∧
      userByClerkUserId db1 data.id = .ok (some u) ∧
      u.email = e.email_address ∧ u.clerkUserId = data.id ∧
      u.firstname = data.first_name ∧ u.lastname = data.last_name ∧
      u.imageUrl = data.image_url ∧ u.posts = none := by
  have hnil := userByClerkUserId_ok_none.mp hfresh
  refine ⟨dbInsert db (mkUserAttributes e data), insertedDoc db (mkUserAttributes e data),
    ?_, ?_, rfl, rfl, rfl, rfl, rfl, rfl⟩
  · rw [upsertFromClerk, hmail]
    simp only [hfresh]
  · apply userByClerkUserId_ok_some.mpr
    rw [clerkMatches_dbInsert]
    simp [hnil, mkUserAttributes]

theorem upsert_fresh_lookup_witness :
    ∃ db1 u, upsertFromClerk emptyDB demoFreshPayload = .ok db1 ∧
      userByClerkUserId db1 demoFreshPayload.id = .ok (some u) ∧
      u.email = "ann.at.example.com" ∧ u.clerkUserId = demoFreshPayload.id ∧
      u.firstname = demoFreshPayload.first_name ∧
      u.lastname = demoFreshPayload.last_name ∧
      u.imageUrl = demoFreshPayload.image_url ∧ u.posts = none :=
  upsert_fresh_lookup emptyDB demoFreshPayload
    { email_address := "ann.at.example.com" } [] rfl rfl

/-- Claim C2: for every subject id that already has a user record,
`upsertFromClerk` with a new payload overwrites exactly the mapped fields
(email, clerkUserId, firstname, lastname, imageUrl) on that record, leaves
its `posts` field (and internal id) unchanged, and leaves every other
record in place. -/
theorem upsert_existing_patches (db : DB) (data : UserJSON) (e : EmailAddressJSON)
    (rest : List EmailAddressJSON) (user : UserDoc)
    (hWf : WfIds db)
    (hmail : data.email_addresses = e :: rest)
    (hfound : userByClerkUserId db data.id = .ok (some user)) :
    ∃ db1, upsertFromClerk db data = .ok db1 ∧
      userByClerkUserId db1 data.id =
        .ok (some
          { _id := user._id,
            email := e.email_address,
            clerkUserId := data.id,
            firstname := data.first_name,
            lastname := data.last_name,
            imageUrl := data.image_url,
            posts := user.posts }) ∧
      db1.users.length = db.users.length ∧
      ∀ v ∈ db.users, v._id ≠ user._id → v ∈ db1.users := by
  have hone := userByClerkUserId_ok_some.mp hfound
  refine ⟨dbPatch db user._id (mkUserAttributes e data), ?_, ?_, ?_, ?_⟩
  · rw [upsertFromClerk, hmail]
    simp only [hfound]
  · have hm1 := clerkMatches_dbPatch_self hWf.1 hone
      (rfl : (mkUserAttributes e data).clerkUserId = data.id)
    exact userByClerkUserId_ok_some.mpr hm1
  · simp [dbPatch]
  · intro v hv hne
    have hfix : (if (v._id == user._id) then patchUser v (mkUserAttributes e data) else v)
        = v := by simp [hne]
    exact List.mem_map.mpr ⟨v, hv, hfix⟩

theorem upsert_existing_patches_witness :
    ∃ db1, upsertFromClerk demoDB1 demoFreshPayload = .ok db1 ∧
      userByClerkUserId db1 demoFreshPayload.id =
        .ok (some
          { _id := demoDoc._id,
            email := "ann.at.example.com",
            clerkUserId := demoFreshPayload.id,
            firstname := demoFreshPayload.first_name,
            lastname := demoFreshPayload.last_name,
            imageUrl := demoFreshPayload.image_url,
            posts := demoDoc.posts }) ∧
      db1.users.length = demoDB1.users.length ∧
      ∀ v ∈ demoDB1.users, v._id ≠ demoDoc._id → v ∈ db1.users :=
  upsert_existing_patches demoDB1 demoFreshPayload
    { email_address := "ann.at.example.com" } [] demoDoc
    (by constructor <;> simp [demoDB1, WfIds, demoDoc]) rfl (by rfl)

/-- Claim C3: `upsertFromClerk` is idempotent — for every valid payload and
every starting store, applying it twice in sequence yields exactly the same
result (same store, or the same error) as applying it once. -/
theorem upsertFromClerk_idem (db : DB) (data : UserJSON) (hWf : WfIds db) :
    (upsertFromClerk db data).bind (fun db1 => upsertFromClerk db1 data)
      = upsertFromClerk db data := by
  cases h : upsertFromClerk db data with
  | error msg => rfl
  | ok db1 =>
    show upsertFromClerk db1 data = .ok db1
    exact upsert_idem_ok hWf h

theorem upsertFromClerk_idem_witness :
    (upsertFromClerk demoDB1 demoFreshPayload).bind
        (fun db1 => upsertFromClerk db1 demoFreshPayload)
      = upsertFromClerk demoDB1 demoFreshPayload :=
  upsertFromClerk_idem demoDB1 demoFreshPayload
    (by constructor <;> simp [demoDB1, WfIds, demoDoc])

/-- Claim C4: for every subject id, `deleteFromClerk` after a prior
successful `upsertFromClerk` for that id removes the user record, so a
subsequent `userByClerkUserId` lookup returns `null`. -/
theorem delete_after_upsert (db : DB) (data : UserJSON) (db1 : DB)
    (hWf : WfIds db) (hup : upsertFromClerk db data = .ok db1) :
    ∃ db2, deleteFromClerk db1 data.id = .ok db2 ∧
      userByClerkUserId db2 data.id = .ok none := by
  obtain ⟨w, hw⟩ := clerkMatches_after_upsert hWf.1 hup
  refine ⟨dbDelete db1 w._id, ?_, ?_⟩
  · rw [deleteFromClerk, userByClerkUserId_ok_some.mpr hw]
  · exact userByClerkUserId_ok_none.mpr (clerkMatches_dbDelete_self hw)

theorem delete_after_upsert_witness :
    ∃ db2, deleteFromClerk (dbInsert emptyDB
        (mkUserAttributes { email_address := "ann.at.example.com" } demoFreshPayload))
        demoFreshPayload.id = .ok db2 ∧
      userByClerkUserId db2 demoFreshPayload.id = .ok none :=
  delete_after_upsert emptyDB demoFreshPayload _
    (by constructor <;> simp [emptyDB, WfIds]) (by rfl)

/-- Claim C5: `deleteFromClerk` for a subject id with no existing record
does not raise an error and leaves the store unchanged (a warning-only
no-op). -/
theorem delete_missing_noop (db : DB) (s : String)
    (habsent : userByClerkUserId db s = .ok none) :
    deleteFromClerk db s = .ok db := by
  rw [deleteFromClerk, habsent]

theorem delete_missing_noop_witness :
    deleteFromClerk demoDB1 "user_42" = .ok demoDB1 :=
  delete_missing_noop demoDB1 "user_42" (by rfl)

/-- Claim C6: `getRecentUsers` returns at most 5 records, and on a store
with at least 5 users it returns exactly 5, the most recently inserted
first: its `i`-th entry is the store's `(N - 1 - i)`-th document in
insertion order. -/
theorem getRecentUsers_spec (db : DB) :
    (getRecentUsers db).length ≤ 5 ∧
    (5 ≤ db.users.length →
      (getRecentUsers db).length = 5 ∧
      ∀ i, i < 5 →
        (getRecentUsers db)[i]? = db.users[db.users.length - 1 - i]?) := by
  refine ⟨?_, fun h5 => ⟨?_, ?_⟩⟩
  · rw [getRecentUsers, List.length_take, List.length_reverse]
    exact min_le_left _ _
  · rw [getRecentUsers, List.length_take, List.length_reverse]
    exact min_eq_left h5
  · intro i hi
    have hlt : i < db.users.length := lt_of_lt_of_le hi h5
    rw [getRecentUsers, List.getElem?_take, if_pos hi,
      List.getElem?_reverse hlt]

theorem getRecentUsers_spec_witness :
    (getRecentUsers demoBigDB).length = 5 ∧
    (getRecentUsers demoBigDB)[0]? = demoBigDB.users[5]? := by
  have h := (getRecentUsers_spec demoBigDB).2 (by decide)
  have h0 := h.2 0 (by decide)
  have hidx : demoBigDB.users.length - 1 - 0 = 5 := by decide
  exact ⟨h.1, hidx ▸ h0⟩

/-- Claim C7: `getCurrentUserOrThrow` throws exactly when no authenticated
identity is resolvable or the resolved subject id has no matching user
record; in every other case it returns the record `getCurrentUser` resolves
(stated on stores satisfying the uniqueness invariant, under which the
indexed `.unique()` lookup never throws). -/
theorem currentUserOrFail_spec (identity : Option UserIdentity) (db : DB)
    (hU : UniqueClerk db) :
    ((∃ msg, getCurrentUserOrThrow identity db = .error msg) ↔
      identity = none ∨ ∃ i, identity = some i ∧ clerkMatches db i.subject = []) ∧
    (∀ u, getCurrentUser identity db = .ok (some u) →
      getCurrentUserOrThrow identity db = .ok u) := by
  constructor
  · cases identity with
    | none => simp [getCurrentUserOrThrow, getCurrentUser]
    | some i =>
      rcases clerkMatches_nil_or_single hU i.subject with h | ⟨u, h⟩
      · simp [getCurrentUserOrThrow, getCurrentUser, userByClerkUserId, h]
      · simp [getCurrentUserOrThrow, getCurrentUser, userByClerkUserId, h]
  · intro u hu
    simp [getCurrentUserOrThrow, hu]

theorem currentUserOrFail_spec_witness :
    ((∃ msg, getCurrentUserOrThrow (some { subject := "user_1" }) demoDB1 = .error msg) ↔
      (some { subject := "user_1" } : Option UserIdentity) = none ∨
        ∃ i, (some { subject := "user_1" } : Option UserIdentity) = some i ∧
          clerkMatches demoDB1 i.subject = []) ∧
    (∀ u, getCurrentUser (some { subject := "user_1" }) demoDB1 = .ok (some u) →
      getCurrentUserOrThrow (some { subject := "user_1" }) demoDB1 = .ok u) :=
  currentUserOrFail_spec (some { subject := "user_1" }) demoDB1
    (by simp [UniqueClerk, demoDB1])

/-- Claim C8: `getCurrentUser` returns `null`, not an error, when the
caller is unauthenticated or the resolved subject id has no matching user
record; when the index holds exactly one matching record it returns that
record. -/
theorem getCurrentUser_spec (identity : Option UserIdentity) (db : DB) :
    (identity = none → getCurrentUser identity db = .ok none) ∧
    (∀ i, identity = some i → clerkMatches db i.subject = [] →
      getCurrentUser identity db = .ok none) ∧
    (∀ i u, identity = some i → clerkMatches db i.subject = [u] →
      getCurrentUser identity db = .ok (some u)) := by
  refine ⟨?_, ?_, ?_⟩
  · rintro rfl
    rfl
  · rintro i rfl h
    simp [getCurrentUser, userByClerkUserId, h]
  · rintro i u rfl h
    simp [getCurrentUser, userByClerkUserId, h]

theorem getCurrentUser_spec_witness :
    getCurrentUser none demoDB1 = .ok none ∧
    getCurrentUser (some { subject := "user_1" }) demoDB1 = .ok (some demoDoc) := by
  refine ⟨(getCurrentUser_spec none demoDB1).1 rfl, ?_⟩
  exact (getCurrentUser_spec (some { subject := "user_1" }) demoDB1).2.2
    { subject := "user_1" } demoDoc rfl (by decide)

/-- One sync step preserves store well-formedness and the subject-id
uniqueness invariant. -/
theorem applyOp_preserves {db : DB} (op : SyncOp)
    (hWf : WfIds db) (hU : UniqueClerk db) :
    WfIds (applyOp db op) ∧ UniqueClerk (applyOp db op) := by
  cases op with
  | upsert data =>
    cases h : upsertFromClerk db data with
    | error msg => simpa [applyOp, h] using And.intro hWf hU
    | ok db1 =>
      have h2 : applyOp db (SyncOp.upsert data) = db1 := by simp [applyOp, h]
      rw [h2]
      obtain ⟨e, rest, hmail, hcase⟩ := upsert_ok_elim h
      rcases hcase with ⟨hnil, rfl⟩ | ⟨user, hone, rfl⟩
      · exact ⟨wfIds_dbInsert _ hWf, uniqueClerk_dbInsert hU hnil⟩
      · exact ⟨wfIds_dbPatch _ _ hWf, uniqueClerk_dbPatch_self hWf hU hone⟩
  | erase s =>
    cases h : deleteFromClerk db s with
    | error msg => simpa [applyOp, h] using And.intro hWf hU
    | ok db1 =>
      have h2 : applyOp db (SyncOp.erase s) = db1 := by simp [applyOp, h]
      rw [h2]
      rcases delete_ok_elim h with ⟨_, rfl⟩ | ⟨user, _, rfl⟩
      · exact ⟨hWf, hU⟩
      · exact ⟨wfIds_dbDelete _ hWf, uniqueClerk_dbDelete _ hU⟩

/-- Claim C9: starting from a well-formed store satisfying "at most one
user record per subject id", any serial sequence of `upsertFromClerk` and
`deleteFromClerk` invocations yields a store still satisfying it. -/
theorem sync_preserves_uniqueness (db : DB) (ops : List SyncOp)
    (hWf : WfIds db) (hU : UniqueClerk db) :
    WfIds (runOps db ops) ∧ UniqueClerk (runOps db ops) := by
  induction ops generalizing db with
  | nil => exact ⟨hWf, hU⟩
  | cons op ops ih =>
    have hstep := applyOp_preserves op hWf hU
    simpa [runOps, List.foldl_cons] using ih (applyOp db op) hstep.1 hstep.2

theorem sync_preserves_uniqueness_witness :
    WfIds (runOps emptyDB [SyncOp.upsert demoFreshPayload, SyncOp.erase "user_1"]) ∧
    UniqueClerk (runOps emptyDB [SyncOp.upsert demoFreshPayload, SyncOp.erase "user_1"]) :=
  sync_preserves_uniqueness emptyDB _
    (by constructor <;> simp [emptyDB, WfIds]) (by simp [UniqueClerk, emptyDB])

/-- Claim C10: `upsertFromClerk` reads the first element of
`email_addresses` without a guard — with an empty list the handler throws
before touching the store; with a non-empty list the access is safe and,
whenever the lookup itself does not throw, the handler reaches its
insert-or-patch branch and succeeds. -/
theorem upsert_email_guard (db : DB) (data : UserJSON) :
    (data.email_addresses = [] →
      upsertFromClerk db data
        = .error "TypeError: cannot read email_address of undefined") ∧
    (data.email_addresses ≠ [] →
      ∀ r, userByClerkUserId db data.id = .ok r →
        ∃ db1, upsertFromClerk db data = .ok db1) := by
  constructor
  · intro h
    rw [upsertFromClerk, h]
  · intro hne r hr
    rcases hmail : data.email_addresses with _ | ⟨e, rest⟩
    · exact absurd hmail hne
    · cases r with
      | none =>
        exact ⟨dbInsert db (mkUserAttributes e data), by
          rw [upsertFromClerk, hmail]; simp only [hr]⟩
      | some user =>
        exact ⟨dbPatch db user._id (mkUserAttributes e data), by
          rw [upsertFromClerk, hmail]; simp only [hr]⟩

theorem upsert_email_guard_witness :
    upsertFromClerk emptyDB demoEmptyMailPayload
      = .error "TypeError: cannot read email_address of undefined" ∧
    ∃ db1, upsertFromClerk emptyDB demoFreshPayload = .ok db1 := by
  refine ⟨(upsert_email_guard emptyDB demoEmptyMailPayload).1 rfl, ?_⟩
  exact (upsert_email_guard emptyDB demoFreshPayload).2
    (by simp [demoFreshPayload]) none rfl
